import Mathlib

/-!
Shallow embedding of the core of the orx-pinned-concurrent-col crate:
the write-permit state machine, the engine `PinnedConcurrentCol` with its
write / write-n-items / slice-acquisition operations, the growth helper
`grow_to`, the `Drop` implementation and the extraction (`into_inner`) and
`clear` operations.

Modelling choices, recorded once here:

* Machine integers (`usize`) are modelled as `Nat`; where wrapping
  subtraction matters (the default `write_permit_n_items` computes
  `begin_idx + num_items - 1` in `usize`), the wrap-around is made explicit
  with `% USIZE`.
* The backing `ConcurrentPinnedVec` is modelled as a flat list of cells,
  each cell `Option`-valued: `none` is an uninitialized (never written)
  cell, `some v` an initialized one.  `capacity` is the number of allocated
  cells, `maxCap` the maximum concurrent capacity `M(B)`, `initCap` the
  capacity a fresh backing of this configuration starts with (what `clear`
  returns to), and `pinnedLen` the pinned-vector length that governs how
  many destructors run when the backing itself is dropped.
* The backing contract says `grow_to(target)` extends the capacity to at
  least `target` and fails when `target` exceeds the maximum concurrent
  capacity.  The model grows to exactly `target`, one lawful instance of
  that contract.
* The policy (`ConcurrentState`) is supplied by the wrapper.  Its
  `fill_memory_with` answer is modelled by `fill : Option α` holding the
  value the nullary filler produces.  The permit decisions are modelled by
  the capacity-comparison policy `MyConState` that lives in the crate
  itself (test module of col.rs), which is also the policy the
  single-threaded claims fix; `release_growth_handle` and
  `update_after_write` are bookkeeping no-ops there and are recorded in an
  event trace instead.
* Rust panics are modelled as explicit `panicked msg` outcomes; a `Spin`
  permit in a single-threaded execution never resolves (the state cannot
  change between iterations of the permit loop), so the loop is modelled by
  one permit evaluation with a distinguished `spins` outcome.
* Each engine operation additionally returns a trace of events (assertion
  failure, permit consultation, grow call, growth-handle release,
  post-write hook, payload stores, iterator-item consumption) so that
  ordering and exactly-once facts can be stated.
-/

namespace PinnedCol

/-- WritePermit (write_permit.rs): the three-valued decision produced by the
concurrent state when asked whether a position may be written. -/
inductive WritePermit where
  | justWrite
  | growThenWrite
  | spin
deriving DecidableEq

/-- Modelled from the spec: the drop-state enum D of the engine, declared in
the crate module mem_state whose source file is not present; the spec (and
the uses in col.rs) give exactly the two variants ToBeDropped and TakenOut. -/
inductive VecDropState where
  | toBeDropped
  | takenOut
deriving DecidableEq

/-- errors.rs: ERR_FAILED_TO_GROW. -/
def ERR_FAILED_TO_GROW : String :=
  "The underlying pinned vector reached its capacity and failed to grow"

/-- errors.rs: ERR_REACHED_MAX_CAPACITY. -/
def ERR_REACHED_MAX_CAPACITY : String :=
  "Out of capacity. Underlying pinned vector cannot grow any further while being concurrently safe."

/-- col.rs write_n_items_at: the ERR_SHORT_ITER panic message. -/
def ERR_SHORT_ITER : String := "iterator is shorter than expected num_items"

/-- col.rs single_item_as_ref: the expect message on the inner get. -/
def ERR_GET_EXPECT : String := "should succeed since has capacity for idx"

/-- Model of the backing ConcurrentPinnedVec: a flat sequence of cells where
`none` marks an uninitialized cell. -/
structure ConPinnedVec (α : Type) where
  cells : List (Option α)
  maxCap : Nat
  initCap : Nat
  pinnedLen : Nat
deriving DecidableEq

namespace ConPinnedVec

variable {α : Type}

/-- Current capacity C(B): the number of allocated cells. -/
def capacity (v : ConPinnedVec α) : Nat := v.cells.length

/-- Backing contract grow_to(target): extend the capacity to at least
`target` (here: exactly `target`), leaving the new cells uninitialized;
fails (`none`) when `target` exceeds the maximum concurrent capacity. -/
def growTo (v : ConPinnedVec α) (target : Nat) : Option (ConPinnedVec α) :=
  if target ≤ v.capacity then some v
  else if target ≤ v.maxCap then
    some { v with cells := v.cells ++ List.replicate (target - v.capacity) none }
  else none

/-- Backing contract grow_to_and_fill_with(target, f): as growTo but the new
cells are initialized with the filler value. -/
def growToFillWith (v : ConPinnedVec α) (target : Nat) (fillValue : α) :
    Option (ConPinnedVec α) :=
  if target ≤ v.capacity then some v
  else if target ≤ v.maxCap then
    some { v with cells := v.cells ++ List.replicate (target - v.capacity) (some fillValue) }
  else none

/-- Backing contract set_pinned_vec_len(len). -/
def setPinnedVecLen (v : ConPinnedVec α) (len : Nat) : ConPinnedVec α :=
  { v with pinnedLen := len }

/-- Backing contract fill_with(0..capacity, f): initialize every allocated
cell with the filler value (the only range at which the engine calls it in
into_inner). -/
def fillAllWith (v : ConPinnedVec α) (fillValue : α) : ConPinnedVec α :=
  { v with cells := List.replicate v.cells.length (some fillValue) }

/-- Backing contract clear(prior_len): run destructors over the first
`priorLen` elements and reset to a fresh empty backing of the initial
capacity.  The first component is the number of destructed elements. -/
def clearVec (v : ConPinnedVec α) (priorLen : Nat) : Nat × ConPinnedVec α :=
  (priorLen, { v with cells := List.replicate v.initCap none, pinnedLen := 0 })

/-- Backing contract get(i): `some cell` when i is within capacity (the cell
itself may be uninitialized), `none` otherwise. -/
def getCell (v : ConPinnedVec α) (i : Nat) : Option (Option α) := v.cells[i]?

/-- Backing contract slices(begin..end) / slices_mut(begin..end): the cells
of the requested range, flattened across fragments. -/
def slicesOver (v : ConPinnedVec α) (beginIdx endIdx : Nat) : List (Option α) :=
  (v.cells.drop beginIdx).take (endIdx - beginIdx)

end ConPinnedVec

/-- The engine PinnedConcurrentCol (col.rs): the backing vector together
with the drop state.  The policy value is stateless for the
capacity-comparison policy used by the single-threaded claims; its
bookkeeping calls are recorded in event traces. -/
structure Col (α : Type) where
  backing : ConPinnedVec α
  dropState : VecDropState
deriving DecidableEq

/-- Events recording what an engine operation did, in order. -/
inductive Event where
  | assertOutOfCap
  | permitAsk (p : WritePermit)
  | growCall (target : Nat)
  | releaseHandle
  | updateAfterWrite (b e : Nat)
  | wroteAt (i : Nat)
  | consumedItem
deriving DecidableEq

/-- Result of an engine write-path operation: normal completion, a panic
with its message, or an unresolvable Spin permit (the single-threaded
rendering of the retry loop). -/
inductive Outcome (α : Type) where
  | ok (col : Col α)
  | panicked (msg : String)
  | spins
deriving DecidableEq

/-- MyConState::write_permit (col.rs, the in-crate policy): compare the
index against the current capacity. -/
def writePermitByCap (capacity idx : Nat) : WritePermit :=
  if idx < capacity then WritePermit.justWrite
  else if idx = capacity then WritePermit.growThenWrite
  else WritePermit.spin

/-- MyConState::write_permit_n_items (col.rs, the in-crate policy): match on
(begin_idx.cmp(capacity), last_idx.cmp(capacity)) with last within capacity
giving JustWrite, begin beyond capacity giving Spin, and GrowThenWrite
otherwise. -/
def writePermitNItemsByCap (capacity beginIdx numItems : Nat) : WritePermit :=
  let lastIdx := beginIdx + numItems - 1
  if lastIdx < capacity then WritePermit.justWrite
  else if capacity < beginIdx then WritePermit.spin
  else WritePermit.growThenWrite

/-- Modulus of usize arithmetic on a 64-bit target. -/
def USIZE : Nat := 2 ^ 64

/-- ConcurrentState::write_permit_n_items default body (state.rs): compute
last_idx = begin_idx + num_items - 1 in usize arithmetic (wrapping, made
explicit with % USIZE) and take the permit of that single position. -/
def writePermitNItemsDefault (writePermitFn : Nat → WritePermit)
    (beginIdx numItems : Nat) : WritePermit :=
  writePermitFn ((beginIdx + numItems + (USIZE - 1)) % USIZE)

/-- Engine helper grow_to (col.rs lines 669-686): grow the backing, plain or
filled according to fill_memory_with, then release the growth handle.  The
expect on a failed grow panics (modelled by `none`) before the release ever
runs. -/
def growToEngine {α : Type} (fill : Option α) (v : ConPinnedVec α)
    (newCapacity : Nat) : Option (ConPinnedVec α) × List Event :=
  let grown : Option (ConPinnedVec α) :=
    match fill with
    | none => v.growTo newCapacity
    | some f => v.growToFillWith newCapacity f
  match grown with
  | some v2 => (some v2, [Event.growCall newCapacity, Event.releaseHandle])
  | none => (none, [Event.growCall newCapacity])

/-- Drop length computation of Drop::drop, ToBeDropped branch (col.rs lines
41-48): with a filler every allocated cell is initialized so the whole
capacity is kept; without a filler the code takes
try_get_no_gap_len().unwrap_or(capacity) and folds it with usize::min into
the capacity. -/
def dropLen {α : Type} (fill : Option α) (noGapLen : Option Nat)
    (capacity : Nat) : Nat :=
  match fill with
  | some _ => capacity
  | none => min capacity (noGapLen.getD capacity)

/-- Drop for PinnedConcurrentCol (col.rs lines 38-61).  `noGapLen` is what
the policy answers to try_get_no_gap_len.  The resulting pinnedLen is the
number of element destructors the backing will run. -/
def Col.drop {α : Type} (fill : Option α) (noGapLen : Option Nat)
    (col : Col α) : Col α :=
  match col.dropState with
  | VecDropState.toBeDropped =>
    let len := dropLen fill noGapLen col.backing.capacity
    { backing := col.backing.setPinnedVecLen len, dropState := VecDropState.takenOut }
  | VecDropState.takenOut =>
    let len :=
      match fill with
      | some _ => col.backing.capacity
      | none => 0
    { backing := col.backing.setPinnedVecLen len, dropState := VecDropState.takenOut }

/-- Helper write_at (col.rs lines 625-629): raw store of the value into the
cell at idx. -/
def Col.writeAt {α : Type} (col : Col α) (idx : Nat) (value : α) : Col α :=
  { col with backing := { col.backing with cells := col.backing.cells.set idx (some value) } }

/-- PinnedConcurrentCol::write (col.rs lines 380-399): assert the index is
below the maximum capacity, consult the permit, then store and run the
post-write hook, growing first when elected. -/
def Col.write {α : Type} (fill : Option α) (col : Col α) (idx : Nat)
    (value : α) : Outcome α × List Event :=
  if idx < col.backing.maxCap then
    match writePermitByCap col.backing.capacity idx with
    | WritePermit.justWrite =>
      (Outcome.ok (col.writeAt idx value),
        [Event.permitAsk WritePermit.justWrite, Event.wroteAt idx,
         Event.updateAfterWrite idx (idx + 1)])
    | WritePermit.growThenWrite =>
      match growToEngine fill col.backing (idx + 1) with
      | (some b2, tr) =>
        (Outcome.ok (({ col with backing := b2 } : Col α).writeAt idx value),
          Event.permitAsk WritePermit.growThenWrite ::
            (tr ++ [Event.wroteAt idx, Event.updateAfterWrite idx (idx + 1)]))
      | (none, tr) =>
        (Outcome.panicked ERR_FAILED_TO_GROW,
          Event.permitAsk WritePermit.growThenWrite :: tr)
    | WritePermit.spin => (Outcome.spins, [Event.permitAsk WritePermit.spin])
  else
    (Outcome.panicked ERR_REACHED_MAX_CAPACITY, [Event.assertOutOfCap])

/-- PinnedConcurrentCol::single_item_as_ref (col.rs lines 420-445): as write
but returning the cell at idx instead of storing into it; on JustWrite the
inner get is expected to succeed, on GrowThenWrite the post-write hook runs
before the get.  The middle component is the returned cell. -/
def Col.singleItemAsRef {α : Type} (fill : Option α) (col : Col α)
    (idx : Nat) : Outcome α × Option (Option α) × List Event :=
  if idx < col.backing.maxCap then
    match writePermitByCap col.backing.capacity idx with
    | WritePermit.justWrite =>
      match col.backing.getCell idx with
      | some cell =>
        (Outcome.ok col, some cell,
          [Event.permitAsk WritePermit.justWrite,
           Event.updateAfterWrite idx (idx + 1)])
      | none =>
        (Outcome.panicked ERR_GET_EXPECT, none,
          [Event.permitAsk WritePermit.justWrite])
    | WritePermit.growThenWrite =>
      match growToEngine fill col.backing (idx + 1) with
      | (some b2, tr) =>
        match b2.getCell idx with
        | some cell =>
          (Outcome.ok { col with backing := b2 }, some cell,
            Event.permitAsk WritePermit.growThenWrite ::
              (tr ++ [Event.updateAfterWrite idx (idx + 1)]))
        | none =>
          (Outcome.panicked ERR_GET_EXPECT, none,
            Event.permitAsk WritePermit.growThenWrite ::
              (tr ++ [Event.updateAfterWrite idx (idx + 1)]))
      | (none, tr) =>
        (Outcome.panicked ERR_FAILED_TO_GROW, none,
          Event.permitAsk WritePermit.growThenWrite :: tr)
    | WritePermit.spin =>
      (Outcome.spins, none, [Event.permitAsk WritePermit.spin])
  else
    (Outcome.panicked ERR_REACHED_MAX_CAPACITY, none, [Event.assertOutOfCap])

/-- Inner loop of write_n_items_at (col.rs lines 631-647): pour the iterator
values one by one into the consecutive cells starting at i, n cells in
total; `none` models the ERR_SHORT_ITER panic when the iterator runs dry.
The second component counts how many items were consumed from the
iterator. -/
def writeSeq {α : Type} (cells : List (Option α)) (i n : Nat)
    (values : List α) : Option (List (Option α)) × Nat :=
  match n, values with
  | 0, _ => (some cells, 0)
  | Nat.succ _, [] => (none, 0)
  | Nat.succ m, v :: vs =>
    let r := writeSeq (cells.set i (some v)) (i + 1) m vs
    (r.1, r.2 + 1)

/-- Helper write_n_items_at lifted to the engine. -/
def Col.writeNItemsAt {α : Type} (col : Col α) (beginIdx numItems : Nat)
    (values : List α) : Option (Col α) × Nat :=
  match writeSeq col.backing.cells beginIdx numItems values with
  | (some cells2, c) =>
    (some { col with backing := { col.backing with cells := cells2 } }, c)
  | (none, c) => (none, c)

/-- PinnedConcurrentCol::write_n_items (col.rs lines 465-495): a positive
num_items asserts the last index, consults the n-items permit and pours the
iterator into the range, growing first when elected; num_items = 0 does
nothing at all. -/
def Col.writeNItems {α : Type} (fill : Option α) (col : Col α)
    (beginIdx numItems : Nat) (values : List α) : Outcome α × List Event :=
  if 0 < numItems then
    let endIdx := beginIdx + numItems
    let lastIdx := endIdx - 1
    if lastIdx < col.backing.maxCap then
      match writePermitNItemsByCap col.backing.capacity beginIdx numItems with
      | WritePermit.justWrite =>
        match col.writeNItemsAt beginIdx numItems values with
        | (some col2, c) =>
          (Outcome.ok col2,
            Event.permitAsk WritePermit.justWrite ::
              (List.replicate c Event.consumedItem ++
                [Event.updateAfterWrite beginIdx endIdx]))
        | (none, c) =>
          (Outcome.panicked ERR_SHORT_ITER,
            Event.permitAsk WritePermit.justWrite ::
              List.replicate c Event.consumedItem)
      | WritePermit.growThenWrite =>
        match growToEngine fill col.backing endIdx with
        | (some b2, tr) =>
          match ({ col with backing := b2 } : Col α).writeNItemsAt beginIdx numItems values with
          | (some col2, c) =>
            (Outcome.ok col2,
              Event.permitAsk WritePermit.growThenWrite ::
                (tr ++ (List.replicate c Event.consumedItem ++
                  [Event.updateAfterWrite beginIdx endIdx])))
          | (none, c) =>
            (Outcome.panicked ERR_SHORT_ITER,
              Event.permitAsk WritePermit.growThenWrite ::
                (tr ++ List.replicate c Event.consumedItem))
        | (none, tr) =>
          (Outcome.panicked ERR_FAILED_TO_GROW,
            Event.permitAsk WritePermit.growThenWrite :: tr)
      | WritePermit.spin => (Outcome.spins, [Event.permitAsk WritePermit.spin])
    else
      (Outcome.panicked ERR_REACHED_MAX_CAPACITY, [Event.assertOutOfCap])
  else
    (Outcome.ok col, [])

/-- Result of a slice-acquisition operation: the engine together with the
flattened content of the acquired slices, or a panic, or an unresolvable
Spin. -/
inductive SlicesOutcome (α : Type) where
  | ok (col : Col α) (slices : List (Option α))
  | panicked (msg : String)
  | spins
deriving DecidableEq

/-- PinnedConcurrentCol::n_items_buffer_as_slices (col.rs lines 515-545):
num_items = 0 returns the default (empty) slice iterator without touching
anything; otherwise assert the last index, consult the n-items permit and
return the slices over the range, growing first when elected. -/
def Col.nItemsBufferAsSlices {α : Type} (fill : Option α) (col : Col α)
    (beginIdx numItems : Nat) : SlicesOutcome α × List Event :=
  match numItems with
  | 0 => (SlicesOutcome.ok col [], [])
  | Nat.succ _ =>
    let endIdx := beginIdx + numItems
    let lastIdx := endIdx - 1
    if lastIdx < col.backing.maxCap then
      match writePermitNItemsByCap col.backing.capacity beginIdx numItems with
      | WritePermit.justWrite =>
        (SlicesOutcome.ok col (col.backing.slicesOver beginIdx endIdx),
          [Event.permitAsk WritePermit.justWrite,
           Event.updateAfterWrite beginIdx endIdx])
      | WritePermit.growThenWrite =>
        match growToEngine fill col.backing endIdx with
        | (some b2, tr) =>
          (SlicesOutcome.ok { col with backing := b2 } (b2.slicesOver beginIdx endIdx),
            Event.permitAsk WritePermit.growThenWrite ::
              (tr ++ [Event.updateAfterWrite beginIdx endIdx]))
        | (none, tr) =>
          (SlicesOutcome.panicked ERR_FAILED_TO_GROW,
            Event.permitAsk WritePermit.growThenWrite :: tr)
      | WritePermit.spin =>
        (SlicesOutcome.spins, [Event.permitAsk WritePermit.spin])
    else
      (SlicesOutcome.panicked ERR_REACHED_MAX_CAPACITY, [Event.assertOutOfCap])

/-- PinnedConcurrentCol::n_items_buffer_as_mut_slices (col.rs lines
565-595): identical control flow to the shared-slices variant, returning
the mutable slices over the range. -/
def Col.nItemsBufferAsMutSlices {α : Type} (fill : Option α) (col : Col α)
    (beginIdx numItems : Nat) : SlicesOutcome α × List Event :=
  match numItems with
  | 0 => (SlicesOutcome.ok col [], [])
  | Nat.succ _ =>
    let endIdx := beginIdx + numItems
    let lastIdx := endIdx - 1
    if lastIdx < col.backing.maxCap then
      match writePermitNItemsByCap col.backing.capacity beginIdx numItems with
      | WritePermit.justWrite =>
        (SlicesOutcome.ok col (col.backing.slicesOver beginIdx endIdx),
          [Event.permitAsk WritePermit.justWrite,
           Event.updateAfterWrite beginIdx endIdx])
      | WritePermit.growThenWrite =>
        match growToEngine fill col.backing endIdx with
        | (some b2, tr) =>
          (SlicesOutcome.ok { col with backing := b2 } (b2.slicesOver beginIdx endIdx),
            Event.permitAsk WritePermit.growThenWrite ::
              (tr ++ [Event.updateAfterWrite beginIdx endIdx]))
        | (none, tr) =>
          (SlicesOutcome.panicked ERR_FAILED_TO_GROW,
            Event.permitAsk WritePermit.growThenWrite :: tr)
      | WritePermit.spin =>
        (SlicesOutcome.spins, [Event.permitAsk WritePermit.spin])
    else
      (SlicesOutcome.panicked ERR_REACHED_MAX_CAPACITY, [Event.assertOutOfCap])

/-- Construction of the pseudo-default replacement backing inside into_inner
(col.rs lines 122-129): with a filler the fresh backing is filled over its
whole capacity and its length set to that capacity; without a filler its
length is set to 0. -/
def prepareInner {α : Type} (fill : Option α) (pseudoDefault : ConPinnedVec α) :
    ConPinnedVec α :=
  match fill with
  | some f => (pseudoDefault.fillAllWith f).setPinnedVecLen pseudoDefault.capacity
  | none => pseudoDefault.setPinnedVecLen 0

/-- PinnedConcurrentCol::into_inner (col.rs lines 116-134): mark the engine
TakenOut, swap a prepared pseudo-default backing in, and return the
original backing with its pinned-vector length set to pinnedVecLen.  The
first component is the extracted vector, the second the engine after the
swap. -/
def Col.intoInner {α : Type} (fill : Option α) (pseudoDefault : ConPinnedVec α)
    (col : Col α) (pinnedVecLen : Nat) : ConPinnedVec α × Col α :=
  (col.backing.setPinnedVecLen pinnedVecLen,
    { backing := prepareInner fill pseudoDefault, dropState := VecDropState.takenOut })

/-- Engine carrying an explicit policy value of type σ, for the operations
whose contract mentions the policy value itself. -/
structure ColS (α σ : Type) where
  backing : ConPinnedVec α
  state : σ
  dropState : VecDropState
deriving DecidableEq

/-- PinnedConcurrentCol::clear (col.rs lines 603-606): clear the backing
with the prior length and rebuild the policy with
S::new_for_con_pinned_vec(backing, 0).  The second component is the number
of elements destructed by the backing clear. -/
def ColS.clear {α σ : Type} (newForConPinnedVec : ConPinnedVec α → Nat → σ)
    (col : ColS α σ) (priorLen : Nat) : ColS α σ × Nat :=
  let r := col.backing.clearVec priorLen
  ({ col with backing := r.2, state := newForConPinnedVec r.2 0 }, r.1)

/-- Sample engine: two allocated uninitialized slots, maximum capacity 4. -/
def colTwoSlots : Col Unit :=
  { backing := { cells := [none, none], maxCap := 4, initCap := 2, pinnedLen := 0 },
    dropState := VecDropState.toBeDropped }

/-- Sample engine after a frontier write at index 2 on colTwoSlots. -/
def colTwoSlotsGrown : Col Unit :=
  { backing := { cells := [none, none, some ()], maxCap := 4, initCap := 2, pinnedLen := 0 },
    dropState := VecDropState.toBeDropped }

/-- Sample backing at its maximum capacity (a full fixed-capacity vector),
on which any further growth fails. -/
def cexFixedFull : ConPinnedVec Unit :=
  { cells := [some (), some ()], maxCap := 2, initCap := 2, pinnedLen := 2 }

/-- Sample engine for the drop scenario of the spec: no filler, current
capacity 4, only index 2 written. -/
def colCap4Gap : Col Unit :=
  { backing := { cells := [none, none, some (), none], maxCap := 4, initCap := 4, pinnedLen := 0 },
    dropState := VecDropState.toBeDropped }

/-- Sample engine over Nat values: four allocated uninitialized slots,
maximum capacity 8. -/
def colFourSlots : Col Nat :=
  { backing := { cells := [none, none, none, none], maxCap := 8, initCap := 4, pinnedLen := 0 },
    dropState := VecDropState.toBeDropped }

/-- Sample pseudo-default backing used for extraction witnesses. -/
def pdUnit : ConPinnedVec Unit :=
  { cells := [none, none], maxCap := 4, initCap := 2, pinnedLen := 0 }

-- THEOREMS

variable {α : Type}

/-- Helper: reading back the position just set. -/
theorem set_getElem?_of_lt {β : Type} (l : List β) (i : Nat) (a : β)
    (h : i < l.length) : (l.set i a)[i]? = some a := by
  rw [List.getElem?_set_self', List.getElem?_eq_getElem h]
  rfl

/-- Helper: the engine grow_to on a target strictly above the current
capacity and within the maximum capacity extends the cells by the filler
value (none without a filler) and releases the growth handle right after
the grow call. -/
theorem growToEngine_grows (fill : Option α) (v : ConPinnedVec α) (t : Nat)
    (hc : v.capacity < t) (hm : t ≤ v.maxCap) :
    growToEngine fill v t =
      (some { v with cells := v.cells ++ List.replicate (t - v.capacity) fill },
        [Event.growCall t, Event.releaseHandle]) := by
  cases fill with
  | none =>
    have h1 : v.growTo t =
        some { v with cells := v.cells ++ List.replicate (t - v.capacity) none } := by
      unfold ConPinnedVec.growTo
      rw [if_neg (by omega), if_pos hm]
    simp [growToEngine, h1]
  | some f =>
    have h1 : v.growToFillWith t f =
        some { v with cells := v.cells ++ List.replicate (t - v.capacity) (some f) } := by
      unfold ConPinnedVec.growToFillWith
      rw [if_neg (by omega), if_pos hm]
    simp [growToEngine, h1]

/-- Claim C1: the spec requires that with no filler and
try_get_no_gap_len() = none, Drop truncates the backing to length 0 so that
no destructors run.  The code (col.rs line 45) instead substitutes the full
capacity for the missing no-gap length, so on the spec scenario (C(B) = 4,
only index 2 written, no filler, no-gap length unknown) it sets the
pinned-vector length to 4, running destructors over all four cells,
three of them uninitialized. -/
theorem C1_drop_no_filler_unknown_len :
    (Col.drop (α := Unit) none none colCap4Gap).backing.pinnedLen = 4 ∧
    (Col.drop (α := Unit) none none colCap4Gap).backing.pinnedLen ≠ 0 := by
  constructor <;> decide

/-- Claim C2 counterexample: a grow_to invocation whose backing grow fails
(backing already at its maximum capacity 2, target 3) panics inside the
expect and never calls release_growth_handle, refuting the claim that the
handle is released on failure paths alike. -/
theorem C2_counterexample :
    (growToEngine (α := Unit) none cexFixedFull 3).1 = none ∧
    (growToEngine (α := Unit) none cexFixedFull 3).2.count Event.releaseHandle ≠ 1 := by
  constructor <;> decide

/-- Claim C2 (amended): for every invocation of grow_to,
release_growth_handle is called exactly once immediately after the backing
grow when the grow succeeds; when the grow fails the call panics with
FailedToGrow and the handle is never released. -/
theorem C2_release_after_successful_grow (fill : Option α) (v : ConPinnedVec α)
    (target : Nat) :
    (growToEngine fill v target).2 =
      Event.growCall target ::
        (if (growToEngine fill v target).1.isSome then [Event.releaseHandle] else []) := by
  cases fill with
  | none => cases h : v.growTo target <;> simp [growToEngine, h]
  | some f => cases h : v.growToFillWith target f <;> simp [growToEngine, h]

/-- Claim C7: the default implementation of write_permit_n_items in the
ConcurrentState trait returns exactly the permit of position
begin_idx + num_items - 1, for every permit function and every positive
num_items (with the indices in usize range, so that the wrapping
subtraction coincides with the mathematical one). -/
theorem C7_default_permit_of_last_index (wp : Nat → WritePermit)
    (beginIdx numItems : Nat) (hpos : 0 < numItems)
    (hrange : beginIdx + numItems ≤ USIZE) :
    writePermitNItemsDefault wp beginIdx numItems = wp (beginIdx + numItems - 1) := by
  have hU : (1:Nat) ≤ USIZE := by norm_num [USIZE]
  have h2 : beginIdx + numItems + (USIZE - 1) = (beginIdx + numItems - 1) + USIZE := by
    omega
  have h3 : (beginIdx + numItems + (USIZE - 1)) % USIZE = beginIdx + numItems - 1 := by
    rw [h2, Nat.add_mod_right, Nat.mod_eq_of_lt (by omega)]
  unfold writePermitNItemsDefault
  rw [h3]

/-- Claim C7 witness at the capacity-comparison permit with capacity 4,
begin 2 and three items. -/
theorem C7_default_permit_of_last_index_witness :
    writePermitNItemsDefault (writePermitByCap 4) 2 3 = writePermitByCap 4 (2 + 3 - 1) :=
  C7_default_permit_of_last_index (writePermitByCap 4) 2 3 (by decide)
    (by norm_num [USIZE])

/-- Claim C8: after clear(prior_len) the backing has been reset through its
own clear (destructing prior_len elements and returning to the fresh
initial capacity with length zero) and the policy value is exactly
new_for_con_pinned_vec(backing, 0). -/
theorem C8_clear_resets_backing_and_policy (σ : Type) (newFor : ConPinnedVec α → Nat → σ)
    (col : ColS α σ) (priorLen : Nat) :
    (ColS.clear newFor col priorLen).1.state =
      newFor (ColS.clear newFor col priorLen).1.backing 0 ∧
    (ColS.clear newFor col priorLen).1.backing.capacity = col.backing.initCap ∧
    (ColS.clear newFor col priorLen).1.backing.pinnedLen = 0 ∧
    (ColS.clear newFor col priorLen).2 = priorLen := by
  refine ⟨rfl, ?_, rfl, rfl⟩
  simp [ColS.clear, ConPinnedVec.clearVec, ConPinnedVec.capacity]

/-- Claim C10: a write_n_items call with num_items = 0 is a complete no-op
for every begin index (even one at or beyond the maximum capacity) and
every iterator: the engine is returned unchanged with an empty event trace
(no assertion, no permit consultation, no item consumption, no post-write
hook), and the two zero-length slice-acquisition variants likewise return
the empty default slices with unchanged engine and empty trace. -/
theorem C10_zero_num_items_noop (fill : Option α) (col : Col α) (beginIdx : Nat)
    (values : List α) :
    Col.writeNItems fill col beginIdx 0 values = (Outcome.ok col, []) ∧
    Col.nItemsBufferAsSlices fill col beginIdx 0 = (SlicesOutcome.ok col [], []) ∧
    Col.nItemsBufferAsMutSlices fill col beginIdx 0 = (SlicesOutcome.ok col [], []) :=
  ⟨rfl, rfl, rfl⟩

/-- Claim C3: whenever a single-position write at index i completes
(single-threaded permit loop with the capacity-comparison policy), the cell
at i holds the written value; a write below the prior capacity leaves the
capacity unchanged, and a write at or above it leaves the capacity at
least i + 1. -/
theorem C3_write_completes (fill : Option α) (col : Col α) (i : Nat) (v : α)
    (col2 : Col α) (h : (Col.write fill col i v).1 = Outcome.ok col2) :
    col2.backing.getCell i = some (some v) ∧
    (i < col.backing.capacity → col2.backing.capacity = col.backing.capacity) ∧
    (col.backing.capacity ≤ i → i + 1 ≤ col2.backing.capacity) := by
  by_cases hm : i < col.backing.maxCap
  · by_cases hlt : i < col.backing.capacity
    · have hperm : writePermitByCap col.backing.capacity i = WritePermit.justWrite := by
        unfold writePermitByCap
        rw [if_pos hlt]
      simp only [Col.write, if_pos hm, hperm] at h
      simp only [Outcome.ok.injEq] at h
      subst h
      refine ⟨?_, fun _ => ?_, fun hge => absurd hge (by omega)⟩
      · exact set_getElem?_of_lt _ _ _ hlt
      · simp [Col.writeAt, ConPinnedVec.capacity]
    · by_cases heq : i = col.backing.capacity
      · have hperm : writePermitByCap col.backing.capacity i = WritePermit.growThenWrite := by
          unfold writePermitByCap
          rw [if_neg hlt, if_pos heq]
        have hg := growToEngine_grows fill col.backing (i + 1) (by omega) (by omega)
        simp only [Col.write, if_pos hm, hperm, hg] at h
        simp only [Outcome.ok.injEq] at h
        subst h
        have hc : col.backing.cells.length = col.backing.capacity := rfl
        have hlen : (col.backing.cells ++
            List.replicate (i + 1 - col.backing.capacity) fill).length = i + 1 := by
          rw [List.length_append, List.length_replicate]
          omega
        refine ⟨?_, fun hx => absurd hx hlt, fun _ => ?_⟩
        · show ((col.backing.cells ++
            List.replicate (i + 1 - col.backing.capacity) fill).set i (some v))[i]? =
              some (some v)
          exact set_getElem?_of_lt _ _ _ (by omega)
        · show i + 1 ≤ ((col.backing.cells ++
            List.replicate (i + 1 - col.backing.capacity) fill).set i (some v)).length
          rw [List.length_set]
          omega
      · have hperm : writePermitByCap col.backing.capacity i = WritePermit.spin := by
          unfold writePermitByCap
          rw [if_neg hlt, if_neg heq]
        simp only [Col.write, if_pos hm, hperm] at h
        exact absurd h (by simp)
  · simp only [Col.write, if_neg hm] at h
    exact absurd h (by simp)

/-- Claim C3 witness: the frontier write at index 2 on the two-slot engine
grows the backing to capacity 3 and stores the value at index 2. -/
theorem C3_write_completes_witness :
    colTwoSlotsGrown.backing.getCell 2 = some (some ()) ∧
    (2 < colTwoSlots.backing.capacity →
      colTwoSlotsGrown.backing.capacity = colTwoSlots.backing.capacity) ∧
    (colTwoSlots.backing.capacity ≤ 2 →
      2 + 1 ≤ colTwoSlotsGrown.backing.capacity) :=
  C3_write_completes none colTwoSlots 2 () colTwoSlotsGrown (by decide)

/-- Claim C6: into_inner(stated_len) returns the original backing with its
pinned-vector length set to stated_len; the engine retains a freshly
prepared pseudo-default backing (filled over its whole capacity with
length = capacity when the policy has a filler, length 0 otherwise) with
drop state TakenOut, so that the subsequent Drop acts only on that fresh
backing (its cells are exactly the prepared ones, and without a filler its
final pinned length is 0, destroying nothing). -/
theorem C6_into_inner_spec (fill : Option α) (noGapLen : Option Nat)
    (pd : ConPinnedVec α) (col : Col α) (statedLen : Nat) :
    (Col.intoInner fill pd col statedLen).1 = col.backing.setPinnedVecLen statedLen ∧
    (Col.intoInner fill pd col statedLen).2.dropState = VecDropState.takenOut ∧
    (∀ f, fill = some f →
      (Col.intoInner fill pd col statedLen).2.backing =
        { pd with cells := List.replicate pd.capacity (some f),
                  pinnedLen := pd.capacity }) ∧
    (fill = none →
      (Col.intoInner fill pd col statedLen).2.backing = { pd with pinnedLen := 0 }) ∧
    (Col.drop fill noGapLen (Col.intoInner fill pd col statedLen).2).backing.cells =
      (prepareInner fill pd).cells ∧
    (fill = none →
      (Col.drop fill noGapLen
        (Col.intoInner fill pd col statedLen).2).backing.pinnedLen = 0) := by
  refine ⟨rfl, rfl, ?_, ?_, ?_, ?_⟩
  · intro f hf
    subst hf
    rfl
  · intro hf
    subst hf
    rfl
  · cases fill <;> rfl
  · intro hf
    subst hf
    rfl

/-- Claim C6 witness: with a filler the retained backing is the fully
filled pseudo-default with length equal to its capacity; without a filler
the Drop after extraction sets the pinned length to 0. -/
theorem C6_into_inner_spec_witness :
    (Col.intoInner (α := Unit) (some ()) pdUnit colTwoSlots 1).2.backing =
      { pdUnit with cells := List.replicate pdUnit.capacity (some ()),
                    pinnedLen := pdUnit.capacity } ∧
    (Col.drop (α := Unit) none none
      (Col.intoInner none pdUnit colTwoSlots 1).2).backing.pinnedLen = 0 :=
  ⟨(C6_into_inner_spec (some ()) none pdUnit colTwoSlots 1).2.2.1 () rfl,
   (C6_into_inner_spec none none pdUnit colTwoSlots 1).2.2.2.2.2 rfl⟩

/-- Helper: the engine grow_to never records an assertion-failure event. -/
theorem assert_not_in_growToEngine (fill : Option α) (v : ConPinnedVec α) (t : Nat) :
    Event.assertOutOfCap ∉ (growToEngine fill v t).2 := by
  cases fill with
  | none => cases h : v.growTo t <;> simp [growToEngine, h]
  | some f => cases h : v.growToFillWith t f <;> simp [growToEngine, h]

/-- Claim C4: a write addressed at or beyond the maximum capacity panics
with the OutOfMaxCapacity assertion as the very first event, before any
permit consultation, store or growth (the whole trace is the single
assertion event); this holds for write, single_item_as_ref, and for
write_n_items and both slice-acquisition variants when the last index of a
positive range is at or beyond the maximum capacity.  Below the maximum
capacity the assertion never fires in any of these operations. -/
theorem C4_max_capacity_assert (fill : Option α) (col : Col α) (i beginIdx n : Nat)
    (v : α) (values : List α) :
    (col.backing.maxCap ≤ i →
      Col.write fill col i v =
        (Outcome.panicked ERR_REACHED_MAX_CAPACITY, [Event.assertOutOfCap]) ∧
      Col.singleItemAsRef fill col i =
        (Outcome.panicked ERR_REACHED_MAX_CAPACITY, none, [Event.assertOutOfCap])) ∧
    (0 < n → col.backing.maxCap ≤ beginIdx + n - 1 →
      Col.writeNItems fill col beginIdx n values =
        (Outcome.panicked ERR_REACHED_MAX_CAPACITY, [Event.assertOutOfCap]) ∧
      Col.nItemsBufferAsSlices fill col beginIdx n =
        (SlicesOutcome.panicked ERR_REACHED_MAX_CAPACITY, [Event.assertOutOfCap]) ∧
      Col.nItemsBufferAsMutSlices fill col beginIdx n =
        (SlicesOutcome.panicked ERR_REACHED_MAX_CAPACITY, [Event.assertOutOfCap])) ∧
    (i < col.backing.maxCap →
      Event.assertOutOfCap ∉ (Col.write fill col i v).2 ∧
      Event.assertOutOfCap ∉ (Col.singleItemAsRef fill col i).2.2) ∧
    (beginIdx + n - 1 < col.backing.maxCap →
      Event.assertOutOfCap ∉ (Col.writeNItems fill col beginIdx n values).2 ∧
      Event.assertOutOfCap ∉ (Col.nItemsBufferAsSlices fill col beginIdx n).2 ∧
      Event.assertOutOfCap ∉ (Col.nItemsBufferAsMutSlices fill col beginIdx n).2) := by
  refine ⟨?_, ?_, ?_, ?_⟩
  · intro hi
    have hnot : ¬ i < col.backing.maxCap := by omega
    exact ⟨by simp [Col.write, hnot], by simp [Col.singleItemAsRef, hnot]⟩
  · intro hn hi
    have hnot : ¬ beginIdx + n - 1 < col.backing.maxCap := by omega
    refine ⟨?_, ?_, ?_⟩
    · simp [Col.writeNItems, if_pos hn, hnot]
    · cases n with
      | zero => exact absurd hn (by omega)
      | succ m =>
        have hnot2 : ¬ beginIdx + m < col.backing.maxCap := by omega
        simp [Col.nItemsBufferAsSlices, hnot, hnot2]
    · cases n with
      | zero => exact absurd hn (by omega)
      | succ m =>
        have hnot2 : ¬ beginIdx + m < col.backing.maxCap := by omega
        simp [Col.nItemsBufferAsMutSlices, hnot, hnot2]
  · intro hi
    constructor
    · cases hp : writePermitByCap col.backing.capacity i with
      | justWrite => simp [Col.write, if_pos hi, hp]
      | growThenWrite =>
        rcases hg : growToEngine fill col.backing (i + 1) with ⟨o, tr⟩
        have hgt := assert_not_in_growToEngine fill col.backing (i + 1)
        rw [hg] at hgt
        simp only at hgt
        cases o <;> simp [Col.write, if_pos hi, hp, hg, hgt]
      | spin => simp [Col.write, if_pos hi, hp]
    · cases hp : writePermitByCap col.backing.capacity i with
      | justWrite =>
        cases hc : col.backing.getCell i <;>
          simp [Col.singleItemAsRef, if_pos hi, hp, hc]
      | growThenWrite =>
        rcases hg : growToEngine fill col.backing (i + 1) with ⟨o, tr⟩
        have hgt := assert_not_in_growToEngine fill col.backing (i + 1)
        rw [hg] at hgt
        simp only at hgt
        cases o with
        | none => simp [Col.singleItemAsRef, if_pos hi, hp, hg, hgt]
        | some b2 =>
          cases hc : b2.getCell i <;>
            simp [Col.singleItemAsRef, if_pos hi, hp, hg, hc, hgt]
      | spin => simp [Col.singleItemAsRef, if_pos hi, hp]
  · intro hlast
    cases n with
    | zero =>
      refine ⟨?_, ?_, ?_⟩ <;> simp [Col.writeNItems, Col.nItemsBufferAsSlices,
        Col.nItemsBufferAsMutSlices]
    | succ m =>
      have hgt := assert_not_in_growToEngine fill col.backing (beginIdx + (m + 1))
      have hlast2 : beginIdx + m < col.backing.maxCap := by omega
      refine ⟨?_, ?_, ?_⟩
      · cases hp : writePermitNItemsByCap col.backing.capacity beginIdx (m + 1) with
        | justWrite =>
          rcases hw : col.writeNItemsAt beginIdx (m + 1) values with ⟨o2, c⟩
          cases o2 <;> simp [Col.writeNItems, if_pos (Nat.succ_pos m), if_pos hlast,
            hp, hw, List.mem_replicate, hlast2]
        | growThenWrite =>
          rcases hg : growToEngine fill col.backing (beginIdx + (m + 1)) with ⟨o, tr⟩
          rw [hg] at hgt
          simp only at hgt
          cases o with
          | none => simp [Col.writeNItems, if_pos (Nat.succ_pos m), if_pos hlast,
              hp, hg, hgt, hlast2]
          | some b2 =>
            rcases hw : ({ col with backing := b2 } : Col α).writeNItemsAt
                beginIdx (m + 1) values with ⟨o2, c⟩
            cases o2 <;> simp [Col.writeNItems, if_pos (Nat.succ_pos m), if_pos hlast,
              hp, hg, hw, hgt, List.mem_replicate, hlast2]
        | spin => simp [Col.writeNItems, if_pos (Nat.succ_pos m), if_pos hlast, hp, hlast2]
      · cases hp : writePermitNItemsByCap col.backing.capacity beginIdx (m + 1) with
        | justWrite => simp [Col.nItemsBufferAsSlices, if_pos hlast, hp, hlast2]
        | growThenWrite =>
          rcases hg : growToEngine fill col.backing (beginIdx + (m + 1)) with ⟨o, tr⟩
          rw [hg] at hgt
          simp only at hgt
          cases o <;> simp [Col.nItemsBufferAsSlices, if_pos hlast, hp, hg, hgt, hlast2]
        | spin => simp [Col.nItemsBufferAsSlices, if_pos hlast, hp, hlast2]
      · cases hp : writePermitNItemsByCap col.backing.capacity beginIdx (m + 1) with
        | justWrite => simp [Col.nItemsBufferAsMutSlices, if_pos hlast, hp, hlast2]
        | growThenWrite =>
          rcases hg : growToEngine fill col.backing (beginIdx + (m + 1)) with ⟨o, tr⟩
          rw [hg] at hgt
          simp only at hgt
          cases o <;> simp [Col.nItemsBufferAsMutSlices, if_pos hlast, hp, hg, hgt, hlast2]
        | spin => simp [Col.nItemsBufferAsMutSlices, if_pos hlast, hp, hlast2]

/-- Claim C4 witness on the two-slot engine with maximum capacity 4: a
write at 5 and a two-item write ending at 4 panic with the assertion as
sole event; a write at 1 and a two-item write ending at 1 never record
the assertion. -/
theorem C4_max_capacity_assert_witness :
    Col.write (α := Unit) none colTwoSlots 5 () =
      (Outcome.panicked ERR_REACHED_MAX_CAPACITY, [Event.assertOutOfCap]) ∧
    Col.writeNItems (α := Unit) none colTwoSlots 3 2 [] =
      (Outcome.panicked ERR_REACHED_MAX_CAPACITY, [Event.assertOutOfCap]) ∧
    Event.assertOutOfCap ∉ (Col.write (α := Unit) none colTwoSlots 1 ()).2 ∧
    Event.assertOutOfCap ∉ (Col.writeNItems (α := Unit) none colTwoSlots 0 2 [(), ()]).2 :=
  ⟨((C4_max_capacity_assert none colTwoSlots 5 3 2 () []).1 (by decide)).1,
   ((C4_max_capacity_assert none colTwoSlots 5 3 2 () []).2.1 (by decide) (by decide)).1,
   ((C4_max_capacity_assert none colTwoSlots 1 0 2 () [(), ()]).2.2.1 (by decide)).1,
   ((C4_max_capacity_assert none colTwoSlots 1 0 2 () [(), ()]).2.2.2 (by decide)).1⟩

/-- Helper: pouring with at least n values succeeds, consumes exactly n
items, preserves the length, writes the first n values in order and leaves
every position outside the range untouched. -/
theorem writeSeq_spec {β : Type} (n : Nat) :
    ∀ (cells : List (Option β)) (i : Nat) (values : List β),
      n ≤ values.length →
      ∃ cells2, writeSeq cells i n values = (some cells2, n) ∧
        cells2.length = cells.length ∧
        (∀ k, k < i ∨ i + n ≤ k → cells2[k]? = cells[k]?) ∧
        (∀ j, j < n → i + j < cells.length → cells2[(i + j)]? = some (values[j]?)) := by
  induction n with
  | zero =>
    intro cells i values _
    exact ⟨cells, rfl, rfl, fun k _ => rfl, fun j hj => absurd hj (by omega)⟩
  | succ m ih =>
    intro cells i values h
    cases values with
    | nil => simp at h
    | cons v vs =>
      obtain ⟨cells2, heq, hlen, hframe, hwrite⟩ :=
        ih (cells.set i (some v)) (i + 1) vs (by simpa using h)
      refine ⟨cells2, ?_, ?_, ?_, ?_⟩
      · simp only [writeSeq, heq]
      · rw [hlen, List.length_set]
      · intro k hk
        have hk2 : k < i + 1 ∨ (i + 1) + m ≤ k := by omega
        rw [hframe k hk2, List.getElem?_set_ne (by omega)]
      · intro j hj hjlen
        cases j with
        | zero =>
          have h1 : cells2[i]? = (cells.set i (some v))[i]? :=
            hframe i (Or.inl (by omega))
          rw [Nat.add_zero] at hjlen ⊢
          rw [h1, set_getElem?_of_lt _ _ _ hjlen]
          simp
        | succ j' =>
          have h1 : i + (j' + 1) = (i + 1) + j' := by omega
          rw [h1]
          rw [hwrite j' (by omega) (by rw [List.length_set]; omega)]
          simp

/-- Helper: pouring with fewer than n values hits the short-iterator
panic. -/
theorem writeSeq_short {β : Type} (n : Nat) :
    ∀ (cells : List (Option β)) (i : Nat) (values : List β),
      values.length < n → (writeSeq cells i n values).1 = none := by
  induction n with
  | zero => intro cells i values h; omega
  | succ m ih =>
    intro cells i values h
    cases values with
    | nil => rfl
    | cons v vs =>
      simp only [writeSeq]
      exact ih (cells.set i (some v)) (i + 1) vs (by simpa using h)

/-- Helper: pouring only ever examines the first n values. -/
theorem writeSeq_take {β : Type} (n : Nat) :
    ∀ (cells : List (Option β)) (i : Nat) (values : List β),
      writeSeq cells i n values = writeSeq cells i n (values.take n) := by
  induction n with
  | zero => intro cells i values; rfl
  | succ m ih =>
    intro cells i values
    cases values with
    | nil => rfl
    | cons v vs =>
      simp only [List.take_succ_cons, writeSeq]
      rw [ih (cells.set i (some v)) (i + 1) vs]

/-- Helper: writeNItemsAt only ever examines the first n values. -/
theorem writeNItemsAt_take (col : Col α) (beginIdx n : Nat) (values : List α) :
    col.writeNItemsAt beginIdx n values =
      col.writeNItemsAt beginIdx n (values.take n) := by
  unfold Col.writeNItemsAt
  rw [writeSeq_take n col.backing.cells beginIdx values]

/-- Claim C5: a positive write_n_items(begin, n, values) writes exactly the
first n values of the iterator, in order, to the cells [begin, begin+n):
with fewer than n values it panics with the dedicated short-iterator
message, with at least n values it completes having consumed exactly n
items, and in every case the call is unchanged when the iterator is
truncated to its first n items (the excess is never consumed).  Stated for
ranges within the maximum capacity whose begin does not outrun the
capacity (so the permit loop resolves). -/
theorem C5_write_n_items_exact (fill : Option α) (col : Col α) (beginIdx n : Nat)
    (values : List α) (hn : 0 < n)
    (hmax : beginIdx + n - 1 < col.backing.maxCap)
    (hbegin : beginIdx ≤ col.backing.capacity) :
    (values.length < n →
      (Col.writeNItems fill col beginIdx n values).1 =
        Outcome.panicked ERR_SHORT_ITER) ∧
    (n ≤ values.length →
      ∃ col2, (Col.writeNItems fill col beginIdx n values).1 = Outcome.ok col2 ∧
        (∀ j, j < n → col2.backing.getCell (beginIdx + j) = some (values[j]?)) ∧
        (Col.writeNItems fill col beginIdx n values).2.count Event.consumedItem = n) ∧
    Col.writeNItems fill col beginIdx n values =
      Col.writeNItems fill col beginIdx n (values.take n) := by
  have hc : col.backing.cells.length = col.backing.capacity := rfl
  by_cases hfit : beginIdx + n - 1 < col.backing.capacity
  · have hp : writePermitNItemsByCap col.backing.capacity beginIdx n =
        WritePermit.justWrite := by
      simp only [writePermitNItemsByCap]
      rw [if_pos hfit]
    refine ⟨?_, ?_, ?_⟩
    · intro hshort
      have hws := writeSeq_short n col.backing.cells beginIdx values hshort
      rcases hwp : writeSeq col.backing.cells beginIdx n values with ⟨o, c⟩
      rw [hwp] at hws
      simp only at hws
      subst hws
      have hwa : col.writeNItemsAt beginIdx n values = (none, c) := by
        unfold Col.writeNItemsAt
        rw [hwp]
      simp [Col.writeNItems, if_pos hn, if_pos hmax, hp, hwa]
    · intro hlong
      obtain ⟨cells2, heq, hlen, hframe, hwrite⟩ :=
        writeSeq_spec n col.backing.cells beginIdx values hlong
      have hwa : col.writeNItemsAt beginIdx n values =
          (some { col with backing := { col.backing with cells := cells2 } }, n) := by
        unfold Col.writeNItemsAt
        rw [heq]
      refine ⟨{ col with backing := { col.backing with cells := cells2 } }, ?_, ?_, ?_⟩
      · simp [Col.writeNItems, if_pos hn, if_pos hmax, hp, hwa]
      · intro j hj
        show cells2[(beginIdx + j)]? = some (values[j]?)
        exact hwrite j hj (by omega)
      · simp [Col.writeNItems, if_pos hn, if_pos hmax, hp, hwa, List.count_cons,
          List.count_append, List.count_replicate]
    · have htake : col.writeNItemsAt beginIdx n values =
          col.writeNItemsAt beginIdx n (values.take n) :=
        writeNItemsAt_take col beginIdx n values
      simp only [Col.writeNItems, if_pos hn, if_pos hmax, hp]
      rw [htake]
  · have hcaplt : col.backing.capacity < beginIdx + n := by omega
    have hp : writePermitNItemsByCap col.backing.capacity beginIdx n =
        WritePermit.growThenWrite := by
      simp only [writePermitNItemsByCap]
      rw [if_neg hfit, if_neg (by omega)]
    set cellsG : List (Option α) :=
      col.backing.cells ++ List.replicate (beginIdx + n - col.backing.capacity) fill
      with hcellsG
    have hg := growToEngine_grows fill col.backing (beginIdx + n) (by omega) (by omega)
    rw [← hcellsG] at hg
    have hlenG : cellsG.length = beginIdx + n := by
      rw [hcellsG, List.length_append, List.length_replicate]
      omega
    refine ⟨?_, ?_, ?_⟩
    · intro hshort
      have hws := writeSeq_short n cellsG beginIdx values hshort
      rcases hwp : writeSeq cellsG beginIdx n values with ⟨o, c⟩
      rw [hwp] at hws
      simp only at hws
      subst hws
      have hwa : ({ col with
          backing := { col.backing with cells := cellsG } } : Col α).writeNItemsAt
            beginIdx n values = (none, c) := by
        unfold Col.writeNItemsAt
        dsimp only
        rw [hwp]
      simp [Col.writeNItems, if_pos hn, if_pos hmax, hp, hg, hwa]
    · intro hlong
      obtain ⟨cells2, heq, hlen, hframe, hwrite⟩ :=
        writeSeq_spec n cellsG beginIdx values hlong
      have hwa : ({ col with
          backing := { col.backing with cells := cellsG } } : Col α).writeNItemsAt
            beginIdx n values =
          (some { col with backing := { col.backing with cells := cells2 } }, n) := by
        unfold Col.writeNItemsAt
        dsimp only
        rw [heq]
      refine ⟨{ col with backing := { col.backing with cells := cells2 } }, ?_, ?_, ?_⟩
      · simp [Col.writeNItems, if_pos hn, if_pos hmax, hp, hg, hwa]
      · intro j hj
        show cells2[(beginIdx + j)]? = some (values[j]?)
        exact hwrite j hj (by omega)
      · simp [Col.writeNItems, if_pos hn, if_pos hmax, hp, hg, hwa, List.count_cons,
          List.count_append, List.count_replicate]
    · have htake : ({ col with
          backing := { col.backing with cells := cellsG } } : Col α).writeNItemsAt
            beginIdx n values =
          ({ col with
            backing := { col.backing with cells := cellsG } } : Col α).writeNItemsAt
              beginIdx n (values.take n) :=
        writeNItemsAt_take _ beginIdx n values
      simp only [Col.writeNItems, if_pos hn, if_pos hmax, hp, hg]
      rw [htake]

/-- Claim C5 witness: writing two of three available values at begin 1 on
the four-slot engine is insensitive to dropping the third value, and the
preconditions hold concretely. -/
theorem C5_write_n_items_exact_witness :
    (0 < 2 ∧ 1 + 2 - 1 < colFourSlots.backing.maxCap ∧
      1 ≤ colFourSlots.backing.capacity) ∧
    Col.writeNItems (α := Nat) none colFourSlots 1 2 [10, 20, 30] =
      Col.writeNItems (α := Nat) none colFourSlots 1 2 ([10, 20, 30].take 2) :=
  ⟨⟨by decide, by decide, by decide⟩,
   (C5_write_n_items_exact none colFourSlots 1 2 [10, 20, 30] (by decide) (by decide)
     (by decide)).2.2⟩

end PinnedCol
